import Mathlib

/-!
# Course / Student / Grade store of `src/index.js`

A shallow embedding of the resolvers declared in `src/index.js`.

* The three module-level arrays `courses`, `students`, `grades` become the three
  fields of `Store`; every resolver takes the store explicitly and every mutation
  returns its result paired with the store it leaves behind.
* `GraphQLInt` values are modelled by `Int`, `GraphQLString` by `String` and the
  (finite) `GraphQLFloat` carried by a grade by `Rat`; the grade value is only
  stored and returned, never computed with.
* An optional `GraphQLInt` argument (`args.id` of the singular lookups and of the
  del mutations) is an `Option Int`; `none` is the absent argument.
* `Array.prototype.find` is `List.find?` (first match, `none` for `undefined`),
  `Array.prototype.push` appends at the tail and lodash `_.remove` keeps, in
  order, the elements for which the predicate is false.
* Each `resolve` function is also given statement by statement as a `StateM Store`
  program over the array operations it calls (`find`, `length`, `push`, `_.remove`);
  `RootQueryType.runOn_resolve`, `RootMutationType.runOn_add_resolve` and
  `RootMutationType.runOn_del_resolve` show that running these programs gives the
  functions above.
-/

/-- A record of the `courses` array (`CourseType`). -/
structure Course where
  id : Int
  name : String
  description : String
deriving DecidableEq

/-- A record of the `students` array (`StudentType`); `lastnamme` is the source spelling. -/
structure Student where
  id : Int
  name : String
  lastnamme : String
  courseId : Int
deriving DecidableEq

/-- A record of the `grades` array (`GradeType`). -/
structure Grade where
  id : Int
  courseId : Int
  studentId : Int
  grade : Rat
deriving DecidableEq

/-- The three module-level arrays of `src/index.js`. -/
structure Store where
  courses : List Course
  students : List Student
  grades : List Grade
deriving DecidableEq

/-- The store with three empty arrays. -/
def Store.empty : Store := { courses := [], students := [], grades := [] }

/-- JavaScript `x === a` for an integer field `x` of a stored record and an optional
integer argument `a`: an absent argument is `undefined`, which no number equals. -/
def strictEq (x : Int) (a : Option Int) : Bool :=
  match a with
  | none => false
  | some n => x == n

/-- JavaScript `x == a` for an integer field `x` of a stored record and an optional
integer argument `a`: a number is loosely equal neither to `undefined` nor to `null`,
and two numbers are loosely equal when they are equal. -/
def looseEq (x : Int) (a : Option Int) : Bool :=
  match a with
  | none => false
  | some n => x == n

namespace Lodash

/-- Lodash `_.remove(array, predicate)`: the array is left holding, in their original
order, the elements for which `predicate` is not truthy. The value is the array after
the call (the list of removed elements that `_.remove` returns is never used by
`src/index.js`). -/
def remove {α : Type} (array : List α) (predicate : α → Bool) : List α :=
  array.filter (fun x => !predicate x)

end Lodash

namespace StudentType

/-- Resolver of `Student.course`: `courses.find(course => course.id === student.courseId)`. -/
def course (s : Store) (student : Student) : Option Course :=
  s.courses.find? (fun course => course.id == student.courseId)

end StudentType

namespace GradeType

/-- Resolver of `Grade.course`: `courses.find(course => course.id === grade.courseId)`. -/
def course (s : Store) (grade : Grade) : Option Course :=
  s.courses.find? (fun course => course.id == grade.courseId)

/-- Resolver of `Grade.student`: `students.find(student => student.id === grade.studentId)`. -/
def student (s : Store) (grade : Grade) : Option Student :=
  s.students.find? (fun student => student.id == grade.studentId)

end GradeType

namespace RootQueryType

/-- Resolver of the `courses` query: `() => courses`. -/
def courses (s : Store) : List Course := s.courses

/-- Resolver of the `students` query: `() => students`. -/
def students (s : Store) : List Student := s.students

/-- Resolver of the `grades` query: `() => grades`. -/
def grades (s : Store) : List Grade := s.grades

/-- Resolver of the `course` query: `courses.find(course => course.id === args.id)`. -/
def course (s : Store) (id : Option Int) : Option Course :=
  s.courses.find? (fun course => strictEq course.id id)

/-- Resolver of the `student` query: `students.find(student => student.id === args.id)`. -/
def student (s : Store) (id : Option Int) : Option Student :=
  s.students.find? (fun student => strictEq student.id id)

/-- Resolver of the `grade` query: `grades.find(grade => grade.id === args.id)`. -/
def grade (s : Store) (id : Option Int) : Option Grade :=
  s.grades.find? (fun grade => strictEq grade.id id)

end RootQueryType

namespace RootMutationType

/-- Resolver of `addCourse`: builds the record with `id: courses.length + 1`, pushes it
and returns it. -/
def addCourse (s : Store) (name description : String) : Course × Store :=
  let course : Course :=
    { id := (s.courses.length : Int) + 1, name := name, description := description }
  (course, { s with courses := s.courses ++ [course] })

/-- Resolver of `addStudent`: builds the record with `id: students.length + 1`, pushes
it and returns it. -/
def addStudent (s : Store) (name lastnamme : String) (courseId : Int) : Student × Store :=
  let student : Student :=
    { id := (s.students.length : Int) + 1, name := name, lastnamme := lastnamme,
      courseId := courseId }
  (student, { s with students := s.students ++ [student] })

/-- Resolver of `addGrade`: builds the record with `id: grades.length + 1`, pushes it
and returns it. -/
def addGrade (s : Store) (courseId studentId : Int) (grade : Rat) : Grade × Store :=
  let gradee : Grade :=
    { id := (s.grades.length : Int) + 1, courseId := courseId, studentId := studentId,
      grade := grade }
  (gradee, { s with grades := s.grades ++ [gradee] })

/-- Resolver of `delCourse`: three `_.remove` calls (courses by `id === args.id`,
students by `courseId === args.id`, grades by `courseId === args.id`), then
`return courses`. -/
def delCourse (s : Store) (id : Option Int) : List Course × Store :=
  let courses := Lodash.remove s.courses (fun course => strictEq course.id id)
  let students := Lodash.remove s.students (fun student => strictEq student.courseId id)
  let grades := Lodash.remove s.grades (fun grade => strictEq grade.courseId id)
  (courses, { courses := courses, students := students, grades := grades })

/-- Resolver of `delStudent`: two `_.remove` calls (students by `id == args.id`, grades
by `studentId == args.id`), then `return students`. -/
def delStudent (s : Store) (id : Option Int) : List Student × Store :=
  let students := Lodash.remove s.students (fun student => looseEq student.id id)
  let grades := Lodash.remove s.grades (fun grade => looseEq grade.studentId id)
  (students, { s with students := students, grades := grades })

/-- Resolver of `delGrade`: one `_.remove` call (grades by `id === args.id`), then
`return grades`. -/
def delGrade (s : Store) (id : Option Int) : List Grade × Store :=
  let grades := Lodash.remove s.grades (fun grade => strictEq grade.id id)
  (grades, { s with grades := grades })

end RootMutationType

/-- One call of a field of the root mutation type, with its arguments. -/
inductive Mutation where
  | addCourse (name description : String)
  | addStudent (name lastnamme : String) (courseId : Int)
  | addGrade (courseId studentId : Int) (grade : Rat)
  | delCourse (id : Option Int)
  | delStudent (id : Option Int)
  | delGrade (id : Option Int)
deriving DecidableEq

/-- The store left behind by one mutation. -/
def Mutation.exec (m : Mutation) (s : Store) : Store :=
  match m with
  | .addCourse name description => (RootMutationType.addCourse s name description).2
  | .addStudent name lastnamme courseId =>
      (RootMutationType.addStudent s name lastnamme courseId).2
  | .addGrade courseId studentId grade =>
      (RootMutationType.addGrade s courseId studentId grade).2
  | .delCourse id => (RootMutationType.delCourse s id).2
  | .delStudent id => (RootMutationType.delStudent s id).2
  | .delGrade id => (RootMutationType.delGrade s id).2

/-- The store left behind by a sequence of mutations, executed first to last. -/
def runMutations (ms : List Mutation) (s : Store) : Store :=
  ms.foldl (fun acc m => m.exec acc) s

/-- A store is reachable when some sequence of mutations leads to it from the empty store. -/
def Reachable (s : Store) : Prop :=
  ∃ ms : List Mutation, runMutations ms Store.empty = s

/-- Three `addCourse` calls followed by `delCourse(id: 2)`: it leaves the courses with
ids 1 and 3. -/
def reuseTrace : List Mutation :=
  [.addCourse "A" "a", .addCourse "B" "b", .addCourse "C" "c", .delCourse (some 2)]

/-- Within each kind no two records share an id. -/
def UniqueIds (s : Store) : Prop :=
  (s.courses.map (fun c => c.id)).Nodup ∧
  (s.students.map (fun st => st.id)).Nodup ∧
  (s.grades.map (fun g => g.id)).Nodup

instance (s : Store) : Decidable (UniqueIds s) := by
  unfold UniqueIds
  infer_instance

/-- An add mutation is fresh at a store when no record of its kind already has the id
`length + 1` that the add is about to assign; a del mutation is always fresh. -/
def Mutation.freshAt (m : Mutation) (s : Store) : Bool :=
  match m with
  | .addCourse _ _ => s.courses.all (fun c => c.id != (s.courses.length : Int) + 1)
  | .addStudent _ _ _ => s.students.all (fun st => st.id != (s.students.length : Int) + 1)
  | .addGrade _ _ _ => s.grades.all (fun g => g.id != (s.grades.length : Int) + 1)
  | .delCourse _ => true
  | .delStudent _ => true
  | .delGrade _ => true

/-- Every mutation of the sequence is fresh at the store it is executed on. -/
def freshRun : List Mutation → Store → Bool
  | [], _ => true
  | m :: ms, s => m.freshAt s && freshRun ms (m.exec s)

/-- The mutation is a call of `addCourse` or of `delCourse`. -/
def Mutation.isCourseOp (m : Mutation) : Bool :=
  match m with
  | .addCourse _ _ => true
  | .delCourse _ => true
  | _ => false

/-- Number of `addCourse` calls in a sequence of mutations. -/
def countAddCourse (ms : List Mutation) : Nat :=
  ms.countP (fun m => match m with
    | .addCourse _ _ => true
    | _ => false)

/-- Number of `delCourse` calls in a sequence of mutations. -/
def countDelCourse (ms : List Mutation) : Nat :=
  ms.countP (fun m => match m with
    | .delCourse _ => true
    | _ => false)

/-- The `id` arguments of the `delCourse` calls of a sequence, in call order. -/
def delCourseTargets (ms : List Mutation) : List (Option Int) :=
  ms.filterMap (fun m => match m with
    | .delCourse id => some id
    | _ => none)

/-- Every `delCourse` of the sequence targets an id held by some course of the store it
is executed on. -/
def delCourseTargetsHeld : List Mutation → Store → Bool
  | [], _ => true
  | m :: ms, s =>
      (match m with
        | .delCourse id => s.courses.any (fun c => strictEq c.id id)
        | _ => true) && delCourseTargetsHeld ms (m.exec s)

/-- Every `delCourse` of the sequence targets an id held by exactly one course of the
store it is executed on. -/
def delCourseTargetsHeldOnce : List Mutation → Store → Bool
  | [], _ => true
  | m :: ms, s =>
      (match m with
        | .delCourse id => (s.courses.filter (fun c => strictEq c.id id)).length == 1
        | _ => true) && delCourseTargetsHeldOnce ms (m.exec s)

/-- The records returned by the `addCourse` calls of a sequence run from store `s`, in
call order. -/
def insertedCourses : List Mutation → Store → List Course
  | [], _ => []
  | m :: ms, s =>
      (match m with
        | .addCourse name description => [(RootMutationType.addCourse s name description).1]
        | _ => []) ++ insertedCourses ms (m.exec s)

/-- Three `addCourse` calls, `delCourse(id: 2)`, a fourth `addCourse` (which reuses id 3)
and `delCourse(id: 3)`. -/
def doubleRemovalTrace : List Mutation :=
  [.addCourse "A" "a", .addCourse "B" "b", .addCourse "C" "c", .delCourse (some 2),
    .addCourse "X" "Y", .delCourse (some 3)]

/-- Every `Student.courseId` and every `Grade.courseId` is the id of a Course of the store. -/
def CourseRefsValid (s : Store) : Prop :=
  (∀ st ∈ s.students, ∃ c ∈ s.courses, c.id = st.courseId) ∧
  (∀ g ∈ s.grades, ∃ c ∈ s.courses, c.id = g.courseId)

/-- Every `Grade.studentId` is the id of a Student of the store. -/
def StudentRefsValid (s : Store) : Prop :=
  ∀ g ∈ s.grades, ∃ st ∈ s.students, st.id = g.studentId

/-- The store has no dangling reference. -/
def NoDanglingRefs (s : Store) : Prop :=
  CourseRefsValid s ∧ StudentRefsValid s

/-- Every Grade carries the `courseId` of each Student whose id is its `studentId`. -/
def GradesFollowStudents (s : Store) : Prop :=
  ∀ g ∈ s.grades, ∀ st ∈ s.students, st.id = g.studentId → st.courseId = g.courseId

instance (s : Store) : Decidable (CourseRefsValid s) := by
  unfold CourseRefsValid
  infer_instance

instance (s : Store) : Decidable (StudentRefsValid s) := by
  unfold StudentRefsValid
  infer_instance

instance (s : Store) : Decidable (NoDanglingRefs s) := by
  unfold NoDanglingRefs
  infer_instance

instance (s : Store) : Decidable (GradesFollowStudents s) := by
  unfold GradesFollowStudents
  infer_instance

/-- Two courses, a student of Course#1 and a grade of that student recorded for
Course#2. -/
def crossCourseTrace : List Mutation :=
  [.addCourse "Math" "Algebra", .addCourse "Physics" "Mechanics",
    .addStudent "Ada" "Lovelace" 1, .addGrade 2 1 9]

/-- Two courses, one student in each, and for each student a grade recorded for the
course that student is in. -/
def enrolledTrace : List Mutation :=
  [.addCourse "Math" "Algebra", .addCourse "Physics" "Mechanics",
    .addStudent "Ada" "Lovelace" 1, .addStudent "Alan" "Turing" 2, .addGrade 1 1 9,
    .addGrade 2 2 8]

/-- The ids 1, 2, ..., n in increasing order. -/
def idsUpTo (n : Nat) : List Int :=
  (List.range n).map (fun (i : Nat) => (i : Int) + 1)

/-- The mutation is one of the three add mutations. -/
def Mutation.isAdd (m : Mutation) : Bool :=
  match m with
  | .addCourse _ _ => true
  | .addStudent _ _ _ => true
  | .addGrade _ _ _ => true
  | _ => false

/-- Number of `addStudent` calls in a sequence of mutations. -/
def countAddStudent (ms : List Mutation) : Nat :=
  ms.countP (fun m => match m with
    | .addStudent _ _ _ => true
    | _ => false)

/-- Number of `addGrade` calls in a sequence of mutations. -/
def countAddGrade (ms : List Mutation) : Nat :=
  ms.countP (fun m => match m with
    | .addGrade _ _ _ => true
    | _ => false)

/-- Four `addCourse` calls followed by `delCourse(id: 1)` and `delCourse(id: 2)`: it leaves
the courses with ids 3 and 4. -/
def sparseTrace : List Mutation :=
  [.addCourse "A" "a", .addCourse "B" "b", .addCourse "C" "c", .addCourse "D" "d",
    .delCourse (some 1), .delCourse (some 2)]

/-- One of the module-level arrays of `src/index.js`, as a place in the store that a
resolver can read and overwrite. -/
structure ArrayRef (α : Type) where
  read : Store → List α
  write : List α → Store → Store

/-- The module-level array `courses`. -/
def coursesArray : ArrayRef Course :=
  { read := fun s => s.courses, write := fun l s => { s with courses := l } }

/-- The module-level array `students`. -/
def studentsArray : ArrayRef Student :=
  { read := fun s => s.students, write := fun l s => { s with students := l } }

/-- The module-level array `grades`. -/
def gradesArray : ArrayRef Grade :=
  { read := fun s => s.grades, write := fun l s => { s with grades := l } }

namespace JsArray

/-- Evaluating the identifier of an array: its current contents. -/
def value {α : Type} (array : ArrayRef α) : StateM Store (List α) := do
  return array.read (← get)

/-- The call `array.find(predicate)`: the first element satisfying the predicate, or
`undefined`; `Array.prototype.find` does not modify the array. -/
def find {α : Type} (array : ArrayRef α) (predicate : α → Bool) :
    StateM Store (Option α) := do
  return (array.read (← get)).find? predicate

/-- The property `array.length`. -/
def length {α : Type} (array : ArrayRef α) : StateM Store Nat := do
  return (array.read (← get)).length

/-- The call `array.push(x)`: the array is left with `x` appended at its tail. -/
def push {α : Type} (array : ArrayRef α) (x : α) : StateM Store Unit :=
  modify fun s => array.write (array.read s ++ [x]) s

end JsArray

/-- The call `_.remove(array, predicate)` on a module-level array: the array is left
holding `Lodash.remove` of its contents. -/
def Lodash.removeIn {α : Type} (array : ArrayRef α) (predicate : α → Bool) :
    StateM Store Unit :=
  modify fun s => array.write (Lodash.remove (array.read s) predicate) s

/-- Running a resolver body on a store: the value it returns and the store it leaves. -/
def runOn {α : Type} (body : StateM Store α) (s : Store) : α × Store :=
  body.run s

/-- `resolve` of `Student.course`:
`(student) => { return courses.find(course => course.id === student.courseId) }`. -/
def StudentType.course.resolve (student : Student) : StateM Store (Option Course) :=
  JsArray.find coursesArray (fun course => course.id == student.courseId)

/-- `resolve` of `Grade.course`:
`(grade) => { return courses.find(course => course.id === grade.courseId) }`. -/
def GradeType.course.resolve (grade : Grade) : StateM Store (Option Course) :=
  JsArray.find coursesArray (fun course => course.id == grade.courseId)

/-- `resolve` of `Grade.student`:
`(grade) => { return students.find(student => student.id === grade.studentId) }`. -/
def GradeType.student.resolve (grade : Grade) : StateM Store (Option Student) :=
  JsArray.find studentsArray (fun student => student.id == grade.studentId)

/-- `resolve` of the `courses` query: `() => courses`. -/
def RootQueryType.courses.resolve : StateM Store (List Course) :=
  JsArray.value coursesArray

/-- `resolve` of the `students` query: `() => students`. -/
def RootQueryType.students.resolve : StateM Store (List Student) :=
  JsArray.value studentsArray

/-- `resolve` of the `grades` query: `() => grades`. -/
def RootQueryType.grades.resolve : StateM Store (List Grade) :=
  JsArray.value gradesArray

/-- `resolve` of the `course` query:
`(parent, args) => courses.find(course => course.id === args.id)`. -/
def RootQueryType.course.resolve (id : Option Int) : StateM Store (Option Course) :=
  JsArray.find coursesArray (fun course => strictEq course.id id)

/-- `resolve` of the `student` query:
`(parent, args) => students.find(student => student.id === args.id)`. -/
def RootQueryType.student.resolve (id : Option Int) : StateM Store (Option Student) :=
  JsArray.find studentsArray (fun student => strictEq student.id id)

/-- `resolve` of the `grade` query:
`(parent, args) => grades.find(grade => grade.id === args.id)`. -/
def RootQueryType.grade.resolve (id : Option Int) : StateM Store (Option Grade) :=
  JsArray.find gradesArray (fun grade => strictEq grade.id id)

/-- `resolve` of `addCourse`, statement by statement. -/
def RootMutationType.addCourse.resolve (name description : String) : StateM Store Course := do
  let course : Course :=
    { id := ((← JsArray.length coursesArray) : Int) + 1, name := name,
      description := description }
  JsArray.push coursesArray course
  return course

/-- `resolve` of `addStudent`, statement by statement. -/
def RootMutationType.addStudent.resolve (name lastnamme : String) (courseId : Int) :
    StateM Store Student := do
  let student : Student :=
    { id := ((← JsArray.length studentsArray) : Int) + 1, name := name,
      lastnamme := lastnamme, courseId := courseId }
  JsArray.push studentsArray student
  return student

/-- `resolve` of `addGrade`, statement by statement. -/
def RootMutationType.addGrade.resolve (courseId studentId : Int) (grade : Rat) :
    StateM Store Grade := do
  let gradee : Grade :=
    { id := ((← JsArray.length gradesArray) : Int) + 1, courseId := courseId,
      studentId := studentId, grade := grade }
  JsArray.push gradesArray gradee
  return gradee

/-- `resolve` of `delCourse`, statement by statement. -/
def RootMutationType.delCourse.resolve (id : Option Int) : StateM Store (List Course) := do
  Lodash.removeIn coursesArray (fun course => strictEq course.id id)
  Lodash.removeIn studentsArray (fun student => strictEq student.courseId id)
  Lodash.removeIn gradesArray (fun grade => strictEq grade.courseId id)
  JsArray.value coursesArray

/-- `resolve` of `delStudent`, statement by statement. -/
def RootMutationType.delStudent.resolve (id : Option Int) : StateM Store (List Student) := do
  Lodash.removeIn studentsArray (fun student => looseEq student.id id)
  Lodash.removeIn gradesArray (fun grade => looseEq grade.studentId id)
  JsArray.value studentsArray

/-- `resolve` of `delGrade`, statement by statement. -/
def RootMutationType.delGrade.resolve (id : Option Int) : StateM Store (List Grade) := do
  Lodash.removeIn gradesArray (fun grade => strictEq grade.id id)
  JsArray.value gradesArray

/-- A resolver body is read-only when, run on any store, it leaves the three arrays as
they were and, run again on the store it left, returns the same value. -/
def ReadOnly {α : Type} (body : StateM Store α) : Prop :=
  ∀ s : Store, (runOn body s).2 = s ∧ (runOn body (runOn body s).2).1 = (runOn body s).1

/-- In each kind the ids are 1, 2, ..., n in sequence order, n the length of the sequence. -/
def DenseIds (s : Store) : Prop :=
  s.courses.map (fun c => c.id) = idsUpTo s.courses.length ∧
  s.students.map (fun st => st.id) = idsUpTo s.students.length ∧
  s.grades.map (fun g => g.id) = idsUpTo s.grades.length

/-! ## Helper lemmas -/

theorem Lodash.mem_remove {α : Type} (array : List α) (predicate : α → Bool) (x : α) :
    x ∈ Lodash.remove array predicate ↔ x ∈ array ∧ predicate x = false := by
  simp [Lodash.remove]

theorem strictEq_some (x n : Int) : strictEq x (some n) = true ↔ x = n := by
  simp [strictEq]

theorem looseEq_some (x n : Int) : looseEq x (some n) = true ↔ x = n := by
  simp [looseEq]

theorem Lodash.remove_sublist {α : Type} (array : List α) (predicate : α → Bool) :
    (Lodash.remove array predicate).Sublist array := by
  unfold Lodash.remove
  exact List.filter_sublist array

theorem Lodash.nodup_map_remove {α β : Type} (f : α → β) (array : List α)
    (predicate : α → Bool) (h : (array.map f).Nodup) :
    ((Lodash.remove array predicate).map f).Nodup :=
  h.sublist ((Lodash.remove_sublist array predicate).map f)

theorem nodup_map_push {α β : Type} (f : α → β) (array : List α) (a : α)
    (h : (array.map f).Nodup) (hfresh : ∀ x ∈ array, f x ≠ f a) :
    ((array ++ [a]).map f).Nodup := by
  rw [List.map_append, List.nodup_append]
  refine ⟨h, by simp, ?_⟩
  intro b hb hb2
  simp only [List.map_cons, List.map_nil, List.mem_singleton] at hb2
  obtain ⟨x, hx, rfl⟩ := List.mem_map.1 hb
  exact hfresh x hx hb2

theorem uniqueIds_exec_of_freshAt (m : Mutation) (s : Store) (hs : UniqueIds s)
    (hm : m.freshAt s = true) : UniqueIds (m.exec s) := by
  obtain ⟨hc, hst, hg⟩ := hs
  cases m with
  | addCourse name description =>
      refine ⟨?_, hst, hg⟩
      apply nodup_map_push _ _ _ hc
      intro x hx
      simp only [Mutation.freshAt, List.all_eq_true] at hm
      simpa using hm x hx
  | addStudent name lastnamme courseId =>
      refine ⟨hc, ?_, hg⟩
      apply nodup_map_push _ _ _ hst
      intro x hx
      simp only [Mutation.freshAt, List.all_eq_true] at hm
      simpa using hm x hx
  | addGrade courseId studentId grade =>
      refine ⟨hc, hst, ?_⟩
      apply nodup_map_push _ _ _ hg
      intro x hx
      simp only [Mutation.freshAt, List.all_eq_true] at hm
      simpa using hm x hx
  | delCourse id =>
      exact ⟨Lodash.nodup_map_remove _ _ _ hc, Lodash.nodup_map_remove _ _ _ hst,
        Lodash.nodup_map_remove _ _ _ hg⟩
  | delStudent id =>
      exact ⟨hc, Lodash.nodup_map_remove _ _ _ hst, Lodash.nodup_map_remove _ _ _ hg⟩
  | delGrade id =>
      exact ⟨hc, hst, Lodash.nodup_map_remove _ _ _ hg⟩

theorem uniqueIds_runMutations_of_freshRun (ms : List Mutation) :
    ∀ s : Store, UniqueIds s → freshRun ms s = true → UniqueIds (runMutations ms s) := by
  induction ms with
  | nil => intro s hs _; exact hs
  | cons m ms ih =>
      intro s hs hrun
      simp only [freshRun, Bool.and_eq_true] at hrun
      exact ih (m.exec s) (uniqueIds_exec_of_freshAt m s hs hrun.1) hrun.2

theorem runMutations_cons (m : Mutation) (ms : List Mutation) (s : Store) :
    runMutations (m :: ms) s = runMutations ms (m.exec s) := rfl

theorem Lodash.length_remove_add {α : Type} (array : List α) (predicate : α → Bool) :
    (Lodash.remove array predicate).length + (array.filter predicate).length = array.length := by
  unfold Lodash.remove
  have h := List.length_eq_length_filter_add (l := array) predicate
  omega

theorem courses_length_runMutations (ms : List Mutation) :
    ∀ s : Store, delCourseTargetsHeldOnce ms s = true →
      (runMutations ms s).courses.length + countDelCourse ms =
        s.courses.length + countAddCourse ms := by
  induction ms with
  | nil => intro s _; simp [runMutations, countDelCourse, countAddCourse]
  | cons m ms ih =>
      intro s h
      simp only [delCourseTargetsHeldOnce, Bool.and_eq_true] at h
      have ih1 := ih (m.exec s) h.2
      rw [runMutations_cons]
      cases m with
      | addCourse name description =>
          simp only [countDelCourse, countAddCourse, List.countP_cons] at ih1 ⊢
          simp only [Mutation.exec, RootMutationType.addCourse, List.length_append,
            List.length_singleton] at ih1 ⊢
          simp
          omega
      | delCourse id =>
          have h1 := h.1
          simp only [beq_iff_eq] at h1
          have h2 := Lodash.length_remove_add s.courses (fun c => strictEq c.id id)
          simp only [countDelCourse, countAddCourse, List.countP_cons] at ih1 ⊢
          simp only [Mutation.exec, RootMutationType.delCourse] at ih1 ⊢
          simp
          omega
      | addStudent name lastnamme courseId =>
          simp only [countDelCourse, countAddCourse, List.countP_cons] at ih1 ⊢
          simp only [Mutation.exec, RootMutationType.addStudent] at ih1 ⊢
          simpa using ih1
      | addGrade courseId studentId grade =>
          simp only [countDelCourse, countAddCourse, List.countP_cons] at ih1 ⊢
          simp only [Mutation.exec, RootMutationType.addGrade] at ih1 ⊢
          simpa using ih1
      | delStudent id =>
          simp only [countDelCourse, countAddCourse, List.countP_cons] at ih1 ⊢
          simp only [Mutation.exec, RootMutationType.delStudent] at ih1 ⊢
          simpa using ih1
      | delGrade id =>
          simp only [countDelCourse, countAddCourse, List.countP_cons] at ih1 ⊢
          simp only [Mutation.exec, RootMutationType.delGrade] at ih1 ⊢
          simpa using ih1

theorem courses_sublist_insertedCourses (ms : List Mutation) :
    ∀ s : Store, (runMutations ms s).courses.Sublist (s.courses ++ insertedCourses ms s) := by
  induction ms with
  | nil => intro s; simp [runMutations, insertedCourses]
  | cons m ms ih =>
      intro s
      have ih1 := ih (m.exec s)
      rw [runMutations_cons]
      cases m with
      | addCourse name description =>
          simp only [insertedCourses]
          simp only [Mutation.exec, RootMutationType.addCourse] at ih1 ⊢
          simpa [List.append_assoc] using ih1
      | delCourse id =>
          simp only [insertedCourses, List.nil_append]
          refine ih1.trans ?_
          simp only [Mutation.exec, RootMutationType.delCourse]
          exact List.Sublist.append (Lodash.remove_sublist _ _) (List.Sublist.refl _)
      | addStudent name lastnamme courseId => simpa [insertedCourses] using ih1
      | addGrade courseId studentId grade => simpa [insertedCourses] using ih1
      | delStudent id => simpa [insertedCourses] using ih1
      | delGrade id => simpa [insertedCourses] using ih1

theorem strictEq_congr {x y : Int} (h : x = y) (a : Option Int) :
    strictEq x a = strictEq y a := by
  rw [h]

theorem looseEq_congr {x y : Int} (h : x = y) (a : Option Int) :
    looseEq x a = looseEq y a := by
  rw [h]

theorem not_strictEq_some (x n : Int) : (!strictEq x (some n)) = decide (x ≠ n) := by
  by_cases h : x = n <;> simp [strictEq, h]

theorem not_looseEq_some (x n : Int) : (!looseEq x (some n)) = decide (x ≠ n) := by
  by_cases h : x = n <;> simp [looseEq, h]

theorem idsUpTo_succ (n : Nat) : idsUpTo (n + 1) = idsUpTo n ++ [(n : Int) + 1] := by
  simp [idsUpTo, List.range_succ]

theorem length_idsUpTo (n : Nat) : (idsUpTo n).length = n := by
  simp [idsUpTo]

theorem nodup_idsUpTo (n : Nat) : (idsUpTo n).Nodup := by
  unfold idsUpTo
  refine List.Nodup.map ?_ (List.nodup_range n)
  intro a b h
  simpa using h

theorem getElem?_idsUpTo {i n : Nat} (h : i < n) : (idsUpTo n)[i]? = some ((i : Int) + 1) := by
  simp [idsUpTo, List.getElem?_range h]

theorem length_filter_eq_one_of_nodup {α : Type} (f : α → Int) (l : List α) (a : α)
    (hn : (l.map f).Nodup) (ha : a ∈ l) :
    (l.filter (fun x => f x == f a)).length = 1 := by
  have h1 : List.count (f a) (l.map f) = 1 :=
    List.count_eq_one_of_mem hn (List.mem_map_of_mem f ha)
  rw [List.count, List.countP_map, List.countP_eq_length_filter] at h1
  simpa [Function.comp_def] using h1

theorem find?_eq_some_of_nodup {α : Type} (f : α → Int) (l : List α) (a : α)
    (hn : (l.map f).Nodup) (ha : a ∈ l) :
    l.find? (fun x => f x == f a) = some a := by
  induction l with
  | nil => simp at ha
  | cons x xs ih =>
      rw [List.map_cons, List.nodup_cons] at hn
      rcases List.mem_cons.1 ha with rfl | hmem
      · simp
      · have hne : f x ≠ f a := by
          intro h
          exact hn.1 (h ▸ List.mem_map_of_mem f hmem)
        rw [List.find?_cons_of_neg _ (by simpa using hne)]
        exact ih hn.2 hmem

theorem id_of_getElem?_of_dense {α : Type} (f : α → Int) (l : List α) (i : Nat) (a : α)
    (hdense : l.map f = idsUpTo l.length) (ha : l[i]? = some a) : f a = (i : Int) + 1 := by
  have hi : i < l.length := by
    rcases Nat.lt_or_ge i l.length with h | h
    · exact h
    · rw [List.getElem?_eq_none h] at ha
      cases ha
  have h1 : (l.map f)[i]? = some (f a) := by
    rw [List.getElem?_map, ha]
    rfl
  rw [hdense, getElem?_idsUpTo hi] at h1
  exact (Option.some.inj h1).symm

theorem dense_push {α : Type} (f : α → Int) (l : List α) (a : α)
    (hdense : l.map f = idsUpTo l.length) (ha : f a = (l.length : Int) + 1) :
    (l ++ [a]).map f = idsUpTo (l ++ [a]).length := by
  rw [List.map_append, List.length_append, List.length_singleton, idsUpTo_succ, hdense]
  simp [ha]

theorem denseIds_exec_of_isAdd (m : Mutation) (s : Store) (hm : m.isAdd = true)
    (hs : DenseIds s) : DenseIds (m.exec s) := by
  obtain ⟨hc, hst, hg⟩ := hs
  cases m with
  | addCourse name description => exact ⟨dense_push _ _ _ hc rfl, hst, hg⟩
  | addStudent name lastnamme courseId => exact ⟨hc, dense_push _ _ _ hst rfl, hg⟩
  | addGrade courseId studentId grade => exact ⟨hc, hst, dense_push _ _ _ hg rfl⟩
  | delCourse id => simp [Mutation.isAdd] at hm
  | delStudent id => simp [Mutation.isAdd] at hm
  | delGrade id => simp [Mutation.isAdd] at hm

theorem adds_only_run (ms : List Mutation) :
    ∀ s : Store, ms.all Mutation.isAdd = true →
      (DenseIds s → DenseIds (runMutations ms s)) ∧
      ((runMutations ms s).courses.length = s.courses.length + countAddCourse ms ∧
        (runMutations ms s).students.length = s.students.length + countAddStudent ms ∧
        (runMutations ms s).grades.length = s.grades.length + countAddGrade ms) ∧
      ((∀ c ∈ s.courses, c ∈ (runMutations ms s).courses) ∧
        (∀ st ∈ s.students, st ∈ (runMutations ms s).students) ∧
        (∀ g ∈ s.grades, g ∈ (runMutations ms s).grades)) := by
  induction ms with
  | nil =>
      intro s _
      simp [runMutations, countAddCourse, countAddStudent, countAddGrade]
  | cons m ms ih =>
      intro s h
      simp only [List.all_cons, Bool.and_eq_true] at h
      obtain ⟨hdense, ⟨hl1, hl2, hl3⟩, hm1, hm2, hm3⟩ := ih (m.exec s) h.2
      rw [runMutations_cons]
      refine ⟨fun hs => hdense (denseIds_exec_of_isAdd m s h.1 hs), ?_, ?_⟩
      · cases m with
        | addCourse name description =>
            simp only [countAddCourse, countAddStudent, countAddGrade, List.countP_cons,
              Mutation.exec, RootMutationType.addCourse, List.length_append,
              List.length_singleton] at hl1 hl2 hl3 ⊢
            simp
            omega
        | addStudent name lastnamme courseId =>
            simp only [countAddCourse, countAddStudent, countAddGrade, List.countP_cons,
              Mutation.exec, RootMutationType.addStudent, List.length_append,
              List.length_singleton] at hl1 hl2 hl3 ⊢
            simp
            omega
        | addGrade courseId studentId grade =>
            simp only [countAddCourse, countAddStudent, countAddGrade, List.countP_cons,
              Mutation.exec, RootMutationType.addGrade, List.length_append,
              List.length_singleton] at hl1 hl2 hl3 ⊢
            simp
            omega
        | delCourse id => simp [Mutation.isAdd] at h
        | delStudent id => simp [Mutation.isAdd] at h
        | delGrade id => simp [Mutation.isAdd] at h
      · cases m with
        | addCourse name description =>
            exact ⟨fun c hc => hm1 c (List.mem_append_left _ hc), hm2, hm3⟩
        | addStudent name lastnamme courseId =>
            exact ⟨hm1, fun st hst => hm2 st (List.mem_append_left _ hst), hm3⟩
        | addGrade courseId studentId grade =>
            exact ⟨hm1, hm2, fun g hg => hm3 g (List.mem_append_left _ hg)⟩
        | delCourse id => simp [Mutation.isAdd] at h
        | delStudent id => simp [Mutation.isAdd] at h
        | delGrade id => simp [Mutation.isAdd] at h

theorem runMutations_append (pre post : List Mutation) (s : Store) :
    runMutations (pre ++ post) s = runMutations post (runMutations pre s) := by
  simp [runMutations, List.foldl_append]

theorem denseIds_empty : DenseIds Store.empty := by
  simp [DenseIds, Store.empty, idsUpTo]

theorem Lodash.remove_remove {α : Type} (array : List α) (predicate : α → Bool) :
    Lodash.remove (Lodash.remove array predicate) predicate = Lodash.remove array predicate := by
  simp [Lodash.remove, List.filter_filter]

theorem RootQueryType.runOn_resolve (s : Store) (id : Option Int) :
    runOn RootQueryType.courses.resolve s = (RootQueryType.courses s, s) ∧
    runOn RootQueryType.students.resolve s = (RootQueryType.students s, s) ∧
    runOn RootQueryType.grades.resolve s = (RootQueryType.grades s, s) ∧
    runOn (RootQueryType.course.resolve id) s = (RootQueryType.course s id, s) ∧
    runOn (RootQueryType.student.resolve id) s = (RootQueryType.student s id, s) ∧
    runOn (RootQueryType.grade.resolve id) s = (RootQueryType.grade s id, s) :=
  ⟨rfl, rfl, rfl, rfl, rfl, rfl⟩

theorem runOn_reference_resolve (s : Store) (student : Student) (grade : Grade) :
    runOn (StudentType.course.resolve student) s = (StudentType.course s student, s) ∧
    runOn (GradeType.course.resolve grade) s = (GradeType.course s grade, s) ∧
    runOn (GradeType.student.resolve grade) s = (GradeType.student s grade, s) :=
  ⟨rfl, rfl, rfl⟩

theorem RootMutationType.runOn_add_resolve (s : Store) (name description lastnamme : String)
    (courseId studentId : Int) (grade : Rat) :
    runOn (RootMutationType.addCourse.resolve name description) s =
      RootMutationType.addCourse s name description ∧
    runOn (RootMutationType.addStudent.resolve name lastnamme courseId) s =
      RootMutationType.addStudent s name lastnamme courseId ∧
    runOn (RootMutationType.addGrade.resolve courseId studentId grade) s =
      RootMutationType.addGrade s courseId studentId grade :=
  ⟨rfl, rfl, rfl⟩

theorem RootMutationType.runOn_del_resolve (s : Store) (id : Option Int) :
    runOn (RootMutationType.delCourse.resolve id) s = RootMutationType.delCourse s id ∧
    runOn (RootMutationType.delStudent.resolve id) s = RootMutationType.delStudent s id ∧
    runOn (RootMutationType.delGrade.resolve id) s = RootMutationType.delGrade s id :=
  ⟨rfl, rfl, rfl⟩

theorem RootMutationType.addCourse_resolve_not_readOnly (name description : String) :
    ¬ ReadOnly (RootMutationType.addCourse.resolve name description) := by
  intro h
  have h0 : (RootMutationType.addCourse Store.empty name description).2 = Store.empty :=
    (h Store.empty).1
  have h1 := congrArg (fun s => s.courses.length) h0
  simp [RootMutationType.addCourse, Store.empty] at h1

theorem RootMutationType.delGrade_resolve_not_readOnly :
    ¬ ReadOnly (RootMutationType.delGrade.resolve (some 1)) := by
  intro h
  have h1 := congrArg (fun s => s.grades.length)
    (h { courses := [], students := [],
         grades := [{ id := 1, courseId := 1, studentId := 1, grade := 9 }] }).1
  simp [runOn_del_resolve, RootMutationType.delGrade, Lodash.remove, strictEq] at h1

/-! ## Claims -/

/-- C1: for every store and every argument tuple, `addCourse`, `addStudent` and
`addGrade` each return a record that carries the supplied arguments and whose id is the
length of that kind's sequence immediately before the call plus 1. -/
theorem add_returns_arguments_with_next_id (s : Store) :
    (∀ name description : String,
        (RootMutationType.addCourse s name description).1 =
          { id := (s.courses.length : Int) + 1, name := name, description := description }) ∧
    (∀ (name lastnamme : String) (courseId : Int),
        (RootMutationType.addStudent s name lastnamme courseId).1 =
          { id := (s.students.length : Int) + 1, name := name, lastnamme := lastnamme,
            courseId := courseId }) ∧
    (∀ (courseId studentId : Int) (grade : Rat),
        (RootMutationType.addGrade s courseId studentId grade).1 =
          { id := (s.grades.length : Int) + 1, courseId := courseId,
            studentId := studentId, grade := grade }) :=
  ⟨fun _ _ => rfl, fun _ _ _ => rfl, fun _ _ _ => rfl⟩

/-- C2: for every store and every integer id, after `delCourse(id)` the store holds no
Course with that id, no Student whose courseId is id and no Grade whose courseId is id;
on a store holding Course#1, Student#1 with courseId 1 and Grade#1 with courseId 1 all
three sequences are empty afterwards. -/
theorem delCourse_removes_course_and_dependents (s : Store) (id : Int) :
    (∀ c ∈ (RootMutationType.delCourse s (some id)).2.courses, c.id ≠ id) ∧
    (∀ st ∈ (RootMutationType.delCourse s (some id)).2.students, st.courseId ≠ id) ∧
    (∀ g ∈ (RootMutationType.delCourse s (some id)).2.grades, g.courseId ≠ id) ∧
    (∀ (cn cd sn sl : String) (gs : Int) (gr : Rat),
        (RootMutationType.delCourse
            { courses := [{ id := 1, name := cn, description := cd }],
              students := [{ id := 1, name := sn, lastnamme := sl, courseId := 1 }],
              grades := [{ id := 1, courseId := 1, studentId := gs, grade := gr }] }
            (some 1)).2 = Store.empty) := by
  refine ⟨?_, ?_, ?_, ?_⟩
  · intro c hc
    have h := (Lodash.mem_remove _ _ _).1 hc
    intro hid
    have := (strictEq_some c.id id).2 hid
    simp [this] at h
  · intro st hst
    have h := (Lodash.mem_remove _ _ _).1 hst
    intro hid
    have := (strictEq_some st.courseId id).2 hid
    simp [this] at h
  · intro g hg
    have h := (Lodash.mem_remove _ _ _).1 hg
    intro hid
    have := (strictEq_some g.courseId id).2 hid
    simp [this] at h
  · intro cn cd sn sl gs gr
    simp [RootMutationType.delCourse, Lodash.remove, strictEq, Store.empty]

/-- C3: for every store and every integer id, after `delStudent(id)` the store holds no
Student with that id and no Grade whose studentId is id. -/
theorem delStudent_removes_student_and_grades (s : Store) (id : Int) :
    (∀ st ∈ (RootMutationType.delStudent s (some id)).2.students, st.id ≠ id) ∧
    (∀ g ∈ (RootMutationType.delStudent s (some id)).2.grades, g.studentId ≠ id) := by
  refine ⟨?_, ?_⟩
  · intro st hst
    have h := (Lodash.mem_remove _ _ _).1 hst
    intro hid
    have := (looseEq_some st.id id).2 hid
    simp [this] at h
  · intro g hg
    have h := (Lodash.mem_remove _ _ _).1 hg
    intro hid
    have := (looseEq_some g.studentId id).2 hid
    simp [this] at h

/-- C4 (as amended): for every kind and every store in which no record of that kind
already has the id `length + 1`, the singular lookup by the id of the record returned by
the add mutation, run on the resulting store, returns that record. -/
theorem lookup_after_add_of_fresh_id (s : Store) :
    (∀ name description : String,
        (∀ c ∈ s.courses, c.id ≠ (s.courses.length : Int) + 1) →
        RootQueryType.course (RootMutationType.addCourse s name description).2
            (some (RootMutationType.addCourse s name description).1.id) =
          some (RootMutationType.addCourse s name description).1) ∧
    (∀ (name lastnamme : String) (courseId : Int),
        (∀ st ∈ s.students, st.id ≠ (s.students.length : Int) + 1) →
        RootQueryType.student (RootMutationType.addStudent s name lastnamme courseId).2
            (some (RootMutationType.addStudent s name lastnamme courseId).1.id) =
          some (RootMutationType.addStudent s name lastnamme courseId).1) ∧
    (∀ (courseId studentId : Int) (grade : Rat),
        (∀ g ∈ s.grades, g.id ≠ (s.grades.length : Int) + 1) →
        RootQueryType.grade (RootMutationType.addGrade s courseId studentId grade).2
            (some (RootMutationType.addGrade s courseId studentId grade).1.id) =
          some (RootMutationType.addGrade s courseId studentId grade).1) := by
  refine ⟨?_, ?_, ?_⟩
  · intro name description hfresh
    simp only [RootQueryType.course, RootMutationType.addCourse, List.find?_append]
    have hnone : s.courses.find? (fun course => strictEq course.id
        (some ((s.courses.length : Int) + 1))) = none := by
      rw [List.find?_eq_none]
      intro c hc
      simpa [strictEq] using hfresh c hc
    rw [hnone]
    simp [strictEq]
  · intro name lastnamme courseId hfresh
    simp only [RootQueryType.student, RootMutationType.addStudent, List.find?_append]
    have hnone : s.students.find? (fun student => strictEq student.id
        (some ((s.students.length : Int) + 1))) = none := by
      rw [List.find?_eq_none]
      intro st hst
      simpa [strictEq] using hfresh st hst
    rw [hnone]
    simp [strictEq]
  · intro courseId studentId grade hfresh
    simp only [RootQueryType.grade, RootMutationType.addGrade, List.find?_append]
    have hnone : s.grades.find? (fun grade => strictEq grade.id
        (some ((s.grades.length : Int) + 1))) = none := by
      rw [List.find?_eq_none]
      intro g hg
      simpa [strictEq] using hfresh g hg
    rw [hnone]
    simp [strictEq]

/-- Witness for C4: on the store of `enrolledTrace`, which holds two courses, two students
and two grades with ids 1 and 2, each add assigns the unused id 3 and the lookup by that id
on the resulting store returns the record just added. -/
theorem lookup_after_add_of_fresh_id_witness :
    ((runMutations enrolledTrace Store.empty).courses.length = 2 ∧
      (∀ c ∈ (runMutations enrolledTrace Store.empty).courses,
        c.id ≠ ((runMutations enrolledTrace Store.empty).courses.length : Int) + 1) ∧
      RootQueryType.course
          (RootMutationType.addCourse (runMutations enrolledTrace Store.empty)
            "Chemistry" "Atoms").2
          (some (RootMutationType.addCourse (runMutations enrolledTrace Store.empty)
            "Chemistry" "Atoms").1.id) =
        some (RootMutationType.addCourse (runMutations enrolledTrace Store.empty)
          "Chemistry" "Atoms").1) ∧
    ((runMutations enrolledTrace Store.empty).students.length = 2 ∧
      (∀ st ∈ (runMutations enrolledTrace Store.empty).students,
        st.id ≠ ((runMutations enrolledTrace Store.empty).students.length : Int) + 1) ∧
      RootQueryType.student
          (RootMutationType.addStudent (runMutations enrolledTrace Store.empty)
            "Grace" "Hopper" 2).2
          (some (RootMutationType.addStudent (runMutations enrolledTrace Store.empty)
            "Grace" "Hopper" 2).1.id) =
        some (RootMutationType.addStudent (runMutations enrolledTrace Store.empty)
          "Grace" "Hopper" 2).1) ∧
    ((runMutations enrolledTrace Store.empty).grades.length = 2 ∧
      (∀ g ∈ (runMutations enrolledTrace Store.empty).grades,
        g.id ≠ ((runMutations enrolledTrace Store.empty).grades.length : Int) + 1) ∧
      RootQueryType.grade
          (RootMutationType.addGrade (runMutations enrolledTrace Store.empty) 2 1 7).2
          (some (RootMutationType.addGrade (runMutations enrolledTrace Store.empty)
            2 1 7).1.id) =
        some (RootMutationType.addGrade (runMutations enrolledTrace Store.empty) 2 1 7).1) :=
  ⟨⟨by decide, by decide,
      (lookup_after_add_of_fresh_id (runMutations enrolledTrace Store.empty)).1
        "Chemistry" "Atoms" (by decide)⟩,
   ⟨by decide, by decide,
      (lookup_after_add_of_fresh_id (runMutations enrolledTrace Store.empty)).2.1
        "Grace" "Hopper" 2 (by decide)⟩,
   ⟨by decide, by decide,
      (lookup_after_add_of_fresh_id (runMutations enrolledTrace Store.empty)).2.2
        2 1 7 (by decide)⟩⟩

/-- Counterexample to C4 as stated: the store reached by three `addCourse` calls and
`delCourse(id: 2)` is reachable, `addCourse("X", "Y")` returns a record with id 3, and
`course(id: 3)` on the resulting store returns the older Course#3, not that record. -/
theorem lookup_after_add_counterexample :
    Reachable (runMutations reuseTrace Store.empty) ∧
    (RootMutationType.addCourse (runMutations reuseTrace Store.empty) "X" "Y").1 =
      { id := 3, name := "X", description := "Y" } ∧
    RootQueryType.course
        (RootMutationType.addCourse (runMutations reuseTrace Store.empty) "X" "Y").2
        (some (RootMutationType.addCourse (runMutations reuseTrace Store.empty) "X" "Y").1.id) =
      some { id := 3, name := "C", description := "c" } ∧
    RootQueryType.course
        (RootMutationType.addCourse (runMutations reuseTrace Store.empty) "X" "Y").2
        (some (RootMutationType.addCourse (runMutations reuseTrace Store.empty) "X" "Y").1.id) ≠
      some (RootMutationType.addCourse (runMutations reuseTrace Store.empty) "X" "Y").1 :=
  ⟨⟨reuseTrace, rfl⟩, by decide, by decide, by decide⟩

/-- C5 (as amended): in every store reached from the empty store by a sequence of add and
del mutations in which each add is executed when no record of its kind already has the
id `length + 1`, no two records of the same kind have the same id. -/
theorem unique_ids_of_fresh_adds (ms : List Mutation)
    (h : freshRun ms Store.empty = true) : UniqueIds (runMutations ms Store.empty) :=
  uniqueIds_runMutations_of_freshRun ms Store.empty
    ⟨List.nodup_nil, List.nodup_nil, List.nodup_nil⟩ h

/-- Witness for C5: two adds, the deletion of the tail course and a further add. -/
theorem unique_ids_of_fresh_adds_witness :
    freshRun [.addCourse "A" "a", .addCourse "B" "b", .addStudent "Ada" "Lovelace" 1,
        .delCourse (some 2), .addCourse "C" "c"] Store.empty = true ∧
    UniqueIds (runMutations [.addCourse "A" "a", .addCourse "B" "b",
        .addStudent "Ada" "Lovelace" 1, .delCourse (some 2), .addCourse "C" "c"] Store.empty) :=
  ⟨by decide, unique_ids_of_fresh_adds _ (by decide)⟩

/-- Counterexample to C5 as stated: three `addCourse` calls, `delCourse(id: 2)` and one
more `addCourse` lead to a reachable store with courses of ids 1, 3, 3. -/
theorem unique_ids_counterexample :
    Reachable (runMutations (reuseTrace ++ [.addCourse "X" "Y"]) Store.empty) ∧
    (runMutations (reuseTrace ++ [.addCourse "X" "Y"]) Store.empty).courses.map (fun c => c.id) =
      [1, 3, 3] ∧
    ¬ UniqueIds (runMutations (reuseTrace ++ [.addCourse "X" "Y"]) Store.empty) :=
  ⟨⟨reuseTrace ++ [.addCourse "X" "Y"], rfl⟩, by decide, by decide⟩

/-- C6: starting from a store whose courses have ids 1, 2, 3 in that order,
`delCourse(id: 2)` leaves two courses and a following `addCourse("X", "Y")` returns a
Course with id 3, after which the store holds two Courses with id 3. -/
theorem id_reuse_after_delete (s : Store)
    (h : s.courses.map (fun c => c.id) = [1, 2, 3]) :
    (RootMutationType.delCourse s (some 2)).1.length = 2 ∧
    (RootMutationType.delCourse s (some 2)).2.courses.length = 2 ∧
    (RootMutationType.addCourse (RootMutationType.delCourse s (some 2)).2 "X" "Y").1 =
      { id := 3, name := "X", description := "Y" } ∧
    ((RootMutationType.addCourse (RootMutationType.delCourse s (some 2)).2 "X" "Y").2.courses.filter
        (fun c => c.id == 3)).length = 2 := by
  obtain ⟨cs, sts, gs⟩ := s
  simp only at h
  rcases cs with _ | ⟨c1, _ | ⟨c2, _ | ⟨c3, _ | ⟨c4, cs⟩⟩⟩⟩ <;>
    simp only [List.map_cons, List.map_nil, List.cons.injEq, and_true, reduceCtorEq,
      and_false] at h
  obtain ⟨h1, h2, h3⟩ := h
  simp [RootMutationType.delCourse, RootMutationType.addCourse, Lodash.remove, strictEq,
    List.filter, h1, h2, h3]

/-- Witness for C6: the store holding Course#1, Course#2 and Course#3. -/
theorem id_reuse_after_delete_witness :
    (runMutations [.addCourse "A" "a", .addCourse "B" "b", .addCourse "C" "c"]
        Store.empty).courses.map (fun c => c.id) = [1, 2, 3] ∧
    ((RootMutationType.addCourse (RootMutationType.delCourse
        (runMutations [.addCourse "A" "a", .addCourse "B" "b", .addCourse "C" "c"] Store.empty)
        (some 2)).2 "X" "Y").2.courses.filter (fun c => c.id == 3)).length = 2 :=
  ⟨by decide, (id_reuse_after_delete _ (by decide)).2.2.2⟩

/-- C7 (as amended): for every sequence of `addCourse` and `delCourse` mutations applied
to the empty store, in which each `delCourse` targets an id held by exactly one course at
that moment and no id is targeted twice, the `courses` query afterwards returns exactly
N - M records (N the number of `addCourse` calls, M the number of `delCourse` calls, and
M is at most N), and they appear in the order in which they were inserted. -/
theorem courses_count_and_order (ms : List Mutation)
    (_hops : ms.all Mutation.isCourseOp = true)
    (hheld : delCourseTargetsHeldOnce ms Store.empty = true)
    (_hdistinct : (delCourseTargets ms).Nodup) :
    (RootQueryType.courses (runMutations ms Store.empty)).length =
      countAddCourse ms - countDelCourse ms ∧
    countDelCourse ms ≤ countAddCourse ms ∧
    (RootQueryType.courses (runMutations ms Store.empty)).Sublist
      (insertedCourses ms Store.empty) := by
  have hlen := courses_length_runMutations ms Store.empty hheld
  have hsub := courses_sublist_insertedCourses ms Store.empty
  simp only [Store.empty, List.length_nil, Nat.zero_add, List.nil_append] at hlen hsub
  simp only [RootQueryType.courses, Store.empty]
  refine ⟨by omega, by omega, hsub⟩

/-- Witness for C7: four adds and two deletions, one of them before an add that reuses
the freed id. -/
theorem courses_count_and_order_witness :
    (RootQueryType.courses (runMutations
        [.addCourse "A" "a", .addCourse "B" "b", .addCourse "C" "c", .delCourse (some 3),
          .addCourse "D" "d", .delCourse (some 1)] Store.empty)).length = 4 - 2 ∧
    (RootQueryType.courses (runMutations
        [.addCourse "A" "a", .addCourse "B" "b", .addCourse "C" "c", .delCourse (some 3),
          .addCourse "D" "d", .delCourse (some 1)] Store.empty)).Sublist
      [{ id := 1, name := "A", description := "a" }, { id := 2, name := "B", description := "b" },
        { id := 3, name := "C", description := "c" },
        { id := 3, name := "D", description := "d" }] :=
  ⟨(courses_count_and_order _ (by decide) (by decide) (by decide)).1,
   (courses_count_and_order _ (by decide) (by decide) (by decide)).2.2⟩

/-- Counterexample to C7 as stated: in `doubleRemovalTrace` every `delCourse` targets an
id held by some course at that moment and no id is targeted twice, N = 4 and M = 2, yet
`delCourse(id: 3)` removes both courses with id 3 and the `courses` query returns one
record. -/
theorem courses_count_counterexample :
    doubleRemovalTrace.all Mutation.isCourseOp = true ∧
    delCourseTargetsHeld doubleRemovalTrace Store.empty = true ∧
    (delCourseTargets doubleRemovalTrace).Nodup ∧
    countAddCourse doubleRemovalTrace = 4 ∧
    countDelCourse doubleRemovalTrace = 2 ∧
    RootQueryType.courses (runMutations doubleRemovalTrace Store.empty) =
      [{ id := 1, name := "A", description := "a" }] ∧
    (RootQueryType.courses (runMutations doubleRemovalTrace Store.empty)).length ≠
      countAddCourse doubleRemovalTrace - countDelCourse doubleRemovalTrace :=
  ⟨by decide, by decide, by decide, by decide, by decide, by decide, by decide⟩

/-- C8 (as amended): for every store without dangling reference and every id, in the store
after `delCourse(id)` every `Student.courseId` and every `Grade.courseId` is again the id
of an existing Course; every `Grade.studentId` is again the id of an existing Student
provided that, before the call, each Grade carries the courseId of every Student whose id
is its studentId. -/
theorem delCourse_keeps_references (s : Store) (id : Option Int) (h : NoDanglingRefs s) :
    CourseRefsValid (RootMutationType.delCourse s id).2 ∧
    (GradesFollowStudents s → NoDanglingRefs (RootMutationType.delCourse s id).2) := by
  obtain ⟨⟨hst, hg⟩, hgs⟩ := h
  have hcourse : CourseRefsValid (RootMutationType.delCourse s id).2 := by
    refine ⟨?_, ?_⟩
    · intro st hmem
      obtain ⟨hin, hkeep⟩ := (Lodash.mem_remove _ _ _).1 hmem
      obtain ⟨c, hc, hcid⟩ := hst st hin
      refine ⟨c, (Lodash.mem_remove _ _ _).2 ⟨hc, ?_⟩, hcid⟩
      simpa [strictEq_congr hcid id] using hkeep
    · intro g hmem
      obtain ⟨hin, hkeep⟩ := (Lodash.mem_remove _ _ _).1 hmem
      obtain ⟨c, hc, hcid⟩ := hg g hin
      refine ⟨c, (Lodash.mem_remove _ _ _).2 ⟨hc, ?_⟩, hcid⟩
      simpa [strictEq_congr hcid id] using hkeep
  refine ⟨hcourse, fun hfollow => ⟨hcourse, ?_⟩⟩
  intro g hmem
  obtain ⟨hin, hkeep⟩ := (Lodash.mem_remove _ _ _).1 hmem
  obtain ⟨st, hstin, hsid⟩ := hgs g hin
  refine ⟨st, (Lodash.mem_remove _ _ _).2 ⟨hstin, ?_⟩, hsid⟩
  simpa [strictEq_congr (hfollow g hin st hstin hsid) id] using hkeep

/-- Witness for C8: `delCourse(id: 1)` on a store with two courses, a student in each and
a grade of each student for the course that student is in. -/
theorem delCourse_keeps_references_witness :
    NoDanglingRefs (runMutations enrolledTrace Store.empty) ∧
    GradesFollowStudents (runMutations enrolledTrace Store.empty) ∧
    NoDanglingRefs
      (RootMutationType.delCourse (runMutations enrolledTrace Store.empty) (some 1)).2 :=
  ⟨by decide, by decide,
   (delCourse_keeps_references (runMutations enrolledTrace Store.empty) (some 1)
      (by decide)).2 (by decide)⟩

/-- Counterexample to C8 as stated: the store reached by `crossCourseTrace` has no
dangling reference, and after `delCourse(id: 1)` Student#1 is gone while Grade#1, recorded
for Course#2, remains with studentId 1. -/
theorem delCourse_dangling_counterexample :
    Reachable (runMutations crossCourseTrace Store.empty) ∧
    NoDanglingRefs (runMutations crossCourseTrace Store.empty) ∧
    (RootMutationType.delCourse (runMutations crossCourseTrace Store.empty) (some 1)).2.students =
      [] ∧
    (RootMutationType.delCourse (runMutations crossCourseTrace Store.empty)
        (some 1)).2.grades.map (fun g => (g.id, g.courseId, g.studentId)) = [(1, 2, 1)] ∧
    ¬ NoDanglingRefs
      (RootMutationType.delCourse (runMutations crossCourseTrace Store.empty) (some 1)).2 :=
  ⟨⟨crossCourseTrace, rfl⟩, by decide, by decide, by decide, by decide⟩

/-- C9: for every store without dangling reference and every id, the store after
`delStudent(id)` has no dangling reference. -/
theorem delStudent_keeps_references (s : Store) (id : Option Int) (h : NoDanglingRefs s) :
    NoDanglingRefs (RootMutationType.delStudent s id).2 := by
  obtain ⟨⟨hst, hg⟩, hgs⟩ := h
  refine ⟨⟨?_, ?_⟩, ?_⟩
  · intro st hmem
    exact hst st ((Lodash.mem_remove _ _ _).1 hmem).1
  · intro g hmem
    exact hg g ((Lodash.mem_remove _ _ _).1 hmem).1
  · intro g hmem
    obtain ⟨hin, hkeep⟩ := (Lodash.mem_remove _ _ _).1 hmem
    obtain ⟨st, hstin, hsid⟩ := hgs g hin
    refine ⟨st, (Lodash.mem_remove _ _ _).2 ⟨hstin, ?_⟩, hsid⟩
    simpa [looseEq_congr hsid id] using hkeep

/-- Witness for C9: `delStudent(id: 1)` on the store of `crossCourseTrace`, which removes
Student#1 together with the grade that names it. -/
theorem delStudent_keeps_references_witness :
    NoDanglingRefs (runMutations crossCourseTrace Store.empty) ∧
    (RootMutationType.delStudent (runMutations crossCourseTrace Store.empty) (some 1)).2.grades =
      [] ∧
    NoDanglingRefs
      (RootMutationType.delStudent (runMutations crossCourseTrace Store.empty) (some 1)).2 :=
  ⟨by decide, by decide,
   delStudent_keeps_references (runMutations crossCourseTrace Store.empty) (some 1)
     (by decide)⟩

/-- C10: the reference resolvers `Student.course`, `Grade.course` and `Grade.student` are
total: for every store and parent record each returns null exactly when no entity of the
referenced kind has the id held in the parent's reference field, and otherwise an entity
of the store whose id is that field; a Student added with courseId 99 to the empty store
resolves `course` to null. -/
theorem reference_resolvers_total (s : Store) :
    (∀ st : Student,
        (StudentType.course s st = none ↔ ∀ c ∈ s.courses, c.id ≠ st.courseId) ∧
        (∀ c, StudentType.course s st = some c → c ∈ s.courses ∧ c.id = st.courseId)) ∧
    (∀ g : Grade,
        (GradeType.course s g = none ↔ ∀ c ∈ s.courses, c.id ≠ g.courseId) ∧
        (∀ c, GradeType.course s g = some c → c ∈ s.courses ∧ c.id = g.courseId)) ∧
    (∀ g : Grade,
        (GradeType.student s g = none ↔ ∀ st ∈ s.students, st.id ≠ g.studentId) ∧
        (∀ st, GradeType.student s g = some st → st ∈ s.students ∧ st.id = g.studentId)) ∧
    (∀ name lastnamme : String,
        StudentType.course (RootMutationType.addStudent Store.empty name lastnamme 99).2
          (RootMutationType.addStudent Store.empty name lastnamme 99).1 = none) := by
  refine ⟨?_, ?_, ?_, ?_⟩
  · intro st
    refine ⟨by simp [StudentType.course, List.find?_eq_none], ?_⟩
    intro c hc
    exact ⟨List.mem_of_find?_eq_some hc, by simpa using List.find?_some hc⟩
  · intro g
    refine ⟨by simp [GradeType.course, List.find?_eq_none], ?_⟩
    intro c hc
    exact ⟨List.mem_of_find?_eq_some hc, by simpa using List.find?_some hc⟩
  · intro g
    refine ⟨by simp [GradeType.student, List.find?_eq_none], ?_⟩
    intro st hst
    exact ⟨List.mem_of_find?_eq_some hst, by simpa using List.find?_some hst⟩
  · intro name lastnamme
    rfl

/-- C11: for every store and every optional id, the singular lookups `course`, `student`
and `grade` return the first record in insertion order whose id equals the argument (the
records before it have another id), return null exactly when no record has that id, and
return null whenever the id argument is absent. -/
theorem singular_lookup_first_match (s : Store) :
    (∀ (id : Int) (c : Course), RootQueryType.course s (some id) = some c ↔
        c.id = id ∧ ∃ before after, s.courses = before ++ c :: after ∧
          ∀ x ∈ before, x.id ≠ id) ∧
    (∀ (id : Int) (st : Student), RootQueryType.student s (some id) = some st ↔
        st.id = id ∧ ∃ before after, s.students = before ++ st :: after ∧
          ∀ x ∈ before, x.id ≠ id) ∧
    (∀ (id : Int) (g : Grade), RootQueryType.grade s (some id) = some g ↔
        g.id = id ∧ ∃ before after, s.grades = before ++ g :: after ∧
          ∀ x ∈ before, x.id ≠ id) ∧
    (∀ id : Int, (RootQueryType.course s (some id) = none ↔ ∀ c ∈ s.courses, c.id ≠ id) ∧
        (RootQueryType.student s (some id) = none ↔ ∀ st ∈ s.students, st.id ≠ id) ∧
        (RootQueryType.grade s (some id) = none ↔ ∀ g ∈ s.grades, g.id ≠ id)) ∧
    (RootQueryType.course s none = none ∧ RootQueryType.student s none = none ∧
        RootQueryType.grade s none = none) := by
  refine ⟨?_, ?_, ?_, ?_, ?_⟩
  · intro id c
    simp [RootQueryType.course, List.find?_eq_some, strictEq]
  · intro id st
    simp [RootQueryType.student, List.find?_eq_some, strictEq]
  · intro id g
    simp [RootQueryType.grade, List.find?_eq_some, strictEq]
  · intro id
    simp [RootQueryType.course, RootQueryType.student, RootQueryType.grade,
      List.find?_eq_none, strictEq]
  · simp [RootQueryType.course, RootQueryType.student, RootQueryType.grade,
      List.find?_eq_none, strictEq]

/-- C12: for every store, `delCourse`, `delStudent` and `delGrade` called with the id
argument absent remove nothing: the three sequences are unchanged and the returned list is
the existing primary sequence. -/
theorem del_without_id_is_noop (s : Store) :
    RootMutationType.delCourse s none = (s.courses, s) ∧
    RootMutationType.delStudent s none = (s.students, s) ∧
    RootMutationType.delGrade s none = (s.grades, s) := by
  simp [RootMutationType.delCourse, RootMutationType.delStudent, RootMutationType.delGrade,
    Lodash.remove, strictEq, looseEq]

/-- C13: each del mutation removes exactly the matching records: after `delCourse(id)` the
courses, students and grades are the previous ones filtered by `id != id`,
`courseId != id` and `courseId != id`; after `delStudent(id)` students and grades are the
previous ones filtered by `id != id` and `studentId != id` and courses are untouched; after
`delGrade(id)` grades is the previous one filtered by `id != id` and the rest is untouched.
The value returned is the primary sequence after removal, and the survivors keep their
relative order. -/
theorem del_removes_exactly_matching (s : Store) (id : Int) :
    RootMutationType.delCourse s (some id) =
      (s.courses.filter (fun c => decide (c.id ≠ id)),
       { courses := s.courses.filter (fun c => decide (c.id ≠ id)),
         students := s.students.filter (fun st => decide (st.courseId ≠ id)),
         grades := s.grades.filter (fun g => decide (g.courseId ≠ id)) }) ∧
    RootMutationType.delStudent s (some id) =
      (s.students.filter (fun st => decide (st.id ≠ id)),
       { courses := s.courses,
         students := s.students.filter (fun st => decide (st.id ≠ id)),
         grades := s.grades.filter (fun g => decide (g.studentId ≠ id)) }) ∧
    RootMutationType.delGrade s (some id) =
      (s.grades.filter (fun g => decide (g.id ≠ id)),
       { courses := s.courses, students := s.students,
         grades := s.grades.filter (fun g => decide (g.id ≠ id)) }) ∧
    ((RootMutationType.delCourse s (some id)).2.courses.Sublist s.courses ∧
      (RootMutationType.delCourse s (some id)).2.students.Sublist s.students ∧
      (RootMutationType.delCourse s (some id)).2.grades.Sublist s.grades ∧
      (RootMutationType.delStudent s (some id)).2.students.Sublist s.students ∧
      (RootMutationType.delStudent s (some id)).2.grades.Sublist s.grades ∧
      (RootMutationType.delGrade s (some id)).2.grades.Sublist s.grades) := by
  refine ⟨?_, ?_, ?_, ?_⟩
  · simp only [RootMutationType.delCourse, Lodash.remove, not_strictEq_some]
  · simp only [RootMutationType.delStudent, Lodash.remove, not_looseEq_some]
  · simp only [RootMutationType.delGrade, Lodash.remove, not_strictEq_some]
  · exact ⟨Lodash.remove_sublist _ _, Lodash.remove_sublist _ _, Lodash.remove_sublist _ _,
      Lodash.remove_sublist _ _, Lodash.remove_sublist _ _, Lodash.remove_sublist _ _⟩

/-- C14: deletions do not cascade upwards: for every store and id, `delGrade(id)` leaves
the courses and students unchanged and `delStudent(id)` leaves the courses unchanged; with
Course#1, Student#1 and Grade#1 with studentId 1, `delStudent(id: 1)` leaves
courses = [Course#1] and students and grades empty. -/
theorem del_does_not_cascade_upwards (s : Store) (id : Option Int) :
    (RootMutationType.delGrade s id).2.courses = s.courses ∧
    (RootMutationType.delGrade s id).2.students = s.students ∧
    (RootMutationType.delStudent s id).2.courses = s.courses ∧
    (∀ (cn cd sn sl : String) (sc gc : Int) (gr : Rat),
        (RootMutationType.delStudent
            { courses := [{ id := 1, name := cn, description := cd }],
              students := [{ id := 1, name := sn, lastnamme := sl, courseId := sc }],
              grades := [{ id := 1, courseId := gc, studentId := 1, grade := gr }] }
            (some 1)).2 =
          { courses := [{ id := 1, name := cn, description := cd }], students := [],
            grades := [] }) := by
  refine ⟨rfl, rfl, rfl, ?_⟩
  intro cn cd sn sl sc gc gr
  simp [RootMutationType.delStudent, Lodash.remove, looseEq]

/-- C15: for every store and arguments, an add mutation of kind K changes the store only by
placing the returned record at the tail of K's sequence: the new K sequence is the old one
followed by the new record, the records stored before are still there unchanged at the
same positions, and the sequences of the other two kinds are unchanged. -/
theorem add_appends_at_tail (s : Store) :
    (∀ name description : String,
        (RootMutationType.addCourse s name description).2 =
          { courses := s.courses ++ [(RootMutationType.addCourse s name description).1],
            students := s.students, grades := s.grades } ∧
        (RootMutationType.addCourse s name description).2.courses.take s.courses.length =
          s.courses) ∧
    (∀ (name lastnamme : String) (courseId : Int),
        (RootMutationType.addStudent s name lastnamme courseId).2 =
          { courses := s.courses,
            students := s.students ++
              [(RootMutationType.addStudent s name lastnamme courseId).1],
            grades := s.grades } ∧
        (RootMutationType.addStudent s name lastnamme courseId).2.students.take
            s.students.length = s.students) ∧
    (∀ (courseId studentId : Int) (grade : Rat),
        (RootMutationType.addGrade s courseId studentId grade).2 =
          { courses := s.courses, students := s.students,
            grades := s.grades ++
              [(RootMutationType.addGrade s courseId studentId grade).1] } ∧
        (RootMutationType.addGrade s courseId studentId grade).2.grades.take
            s.grades.length = s.grades) := by
  refine ⟨?_, ?_, ?_⟩
  · intro name description
    exact ⟨rfl, List.take_left _ _⟩
  · intro name lastnamme courseId
    exact ⟨rfl, List.take_left _ _⟩
  · intro courseId studentId grade
    exact ⟨rfl, List.take_left _ _⟩

/-- C16 (as amended): for every store whose courses carry the ids 1, 2, ..., n in that
order (as after add mutations only) and every course in it at a position other than the
last, deleting that course with `delCourse` and then calling `addCourse` produces a new
Course whose id, n, equals the id of a Course still in the store. -/
theorem duplicate_id_after_inner_delete (s : Store) (i : Nat) (c : Course)
    (name description : String)
    (hdense : s.courses.map (fun c => c.id) = idsUpTo s.courses.length)
    (hc : s.courses[i]? = some c) (hi : i + 1 < s.courses.length) :
    (RootMutationType.addCourse (RootMutationType.delCourse s (some c.id)).2
        name description).1.id = s.courses.length ∧
    ∃ c' ∈ (RootMutationType.delCourse s (some c.id)).2.courses,
      c'.id = (RootMutationType.addCourse (RootMutationType.delCourse s (some c.id)).2
        name description).1.id := by
  have hnodup : (s.courses.map (fun c => c.id)).Nodup := hdense ▸ nodup_idsUpTo _
  have hmem : c ∈ s.courses := List.getElem?_mem hc
  have hcid : c.id = (i : Int) + 1 := id_of_getElem?_of_dense _ _ _ _ hdense hc
  have hone := length_filter_eq_one_of_nodup (fun c => c.id) s.courses c hnodup hmem
  have hlen := Lodash.length_remove_add s.courses (fun x => strictEq x.id (some c.id))
  have hfil : s.courses.filter (fun x => strictEq x.id (some c.id)) =
      s.courses.filter (fun x => x.id == c.id) := rfl
  rw [hfil, hone] at hlen
  have hnew : (RootMutationType.addCourse (RootMutationType.delCourse s (some c.id)).2
      name description).1.id = s.courses.length := by
    simp only [RootMutationType.addCourse, RootMutationType.delCourse]
    omega
  refine ⟨hnew, ?_⟩
  have hlast : s.courses.length - 1 < s.courses.length := by omega
  obtain ⟨d, hd⟩ : ∃ d, s.courses[s.courses.length - 1]? = some d :=
    ⟨s.courses[s.courses.length - 1], List.getElem?_eq_getElem hlast⟩
  have hdid : d.id = ((s.courses.length - 1 : Nat) : Int) + 1 :=
    id_of_getElem?_of_dense _ _ _ _ hdense hd
  refine ⟨d, (Lodash.mem_remove _ _ _).2 ⟨List.getElem?_mem hd, ?_⟩, ?_⟩
  · simp only [strictEq, beq_eq_false_iff_ne, ne_eq]
    rw [hdid, hcid]
    omega
  · rw [hnew, hdid]
    omega

/-- Witness for C16: deleting Course#1 from the store holding Course#1, Course#2 and
Course#3 and adding a course gives a second course with id 3. -/
theorem duplicate_id_after_inner_delete_witness :
    (RootMutationType.addCourse (RootMutationType.delCourse
        (runMutations [.addCourse "A" "a", .addCourse "B" "b", .addCourse "C" "c"] Store.empty)
        (some 1)).2 "X" "Y").1.id = 3 ∧
    ∃ c' ∈ (RootMutationType.delCourse
        (runMutations [.addCourse "A" "a", .addCourse "B" "b", .addCourse "C" "c"] Store.empty)
        (some 1)).2.courses,
      c'.id = (RootMutationType.addCourse (RootMutationType.delCourse
        (runMutations [.addCourse "A" "a", .addCourse "B" "b", .addCourse "C" "c"] Store.empty)
        (some 1)).2 "X" "Y").1.id :=
  duplicate_id_after_inner_delete
    (runMutations [.addCourse "A" "a", .addCourse "B" "b", .addCourse "C" "c"] Store.empty)
    0 { id := 1, name := "A", description := "a" } "X" "Y" (by decide) (by decide) (by decide)

/-- Counterexample to C16 as stated: the store reached by `sparseTrace` is reachable and
holds Course#3 followed by Course#4; deleting Course#3, which is not the last element, and
adding a course gives the new course id 2, an id that no course of the store has, before
or after the deletion. -/
theorem duplicate_id_counterexample :
    Reachable (runMutations sparseTrace Store.empty) ∧
    (runMutations sparseTrace Store.empty).courses =
      [{ id := 3, name := "C", description := "c" },
        { id := 4, name := "D", description := "d" }] ∧
    (RootMutationType.delCourse (runMutations sparseTrace Store.empty) (some 3)).2.courses =
      [{ id := 4, name := "D", description := "d" }] ∧
    (RootMutationType.addCourse
        (RootMutationType.delCourse (runMutations sparseTrace Store.empty) (some 3)).2
        "X" "Y").1 = { id := 2, name := "X", description := "Y" } ∧
    (∀ c ∈ (runMutations sparseTrace Store.empty).courses, c.id ≠ 2) ∧
    (RootMutationType.addCourse
        (RootMutationType.delCourse (runMutations sparseTrace Store.empty) (some 3)).2
        "X" "Y").2.courses.map (fun c => c.id) = [4, 2] :=
  ⟨⟨sparseTrace, rfl⟩, by decide, by decide, by decide, by decide, by decide⟩

/-- C17: the six root query fields (`courses`, `students`, `grades`, `course`, `student`,
`grade`) and the three reference resolvers are read-only and deterministic: run on any
store, each resolver body leaves the three sequences unchanged, and run a second time on
the store it left, with no mutation in between, it returns the same result. -/
theorem queries_read_only :
    ReadOnly RootQueryType.courses.resolve ∧
    ReadOnly RootQueryType.students.resolve ∧
    ReadOnly RootQueryType.grades.resolve ∧
    (∀ id : Option Int, ReadOnly (RootQueryType.course.resolve id)) ∧
    (∀ id : Option Int, ReadOnly (RootQueryType.student.resolve id)) ∧
    (∀ id : Option Int, ReadOnly (RootQueryType.grade.resolve id)) ∧
    (∀ student : Student, ReadOnly (StudentType.course.resolve student)) ∧
    (∀ grade : Grade, ReadOnly (GradeType.course.resolve grade)) ∧
    (∀ grade : Grade, ReadOnly (GradeType.student.resolve grade)) := by
  refine ⟨?_, ?_, ?_, ?_, ?_, ?_, ?_, ?_, ?_⟩
  · intro s
    have h := (RootQueryType.runOn_resolve s none).1
    rw [h]
    exact ⟨rfl, congrArg Prod.fst h⟩
  · intro s
    have h := (RootQueryType.runOn_resolve s none).2.1
    rw [h]
    exact ⟨rfl, congrArg Prod.fst h⟩
  · intro s
    have h := (RootQueryType.runOn_resolve s none).2.2.1
    rw [h]
    exact ⟨rfl, congrArg Prod.fst h⟩
  · intro id s
    have h := (RootQueryType.runOn_resolve s id).2.2.2.1
    rw [h]
    exact ⟨rfl, congrArg Prod.fst h⟩
  · intro id s
    have h := (RootQueryType.runOn_resolve s id).2.2.2.2.1
    rw [h]
    exact ⟨rfl, congrArg Prod.fst h⟩
  · intro id s
    have h := (RootQueryType.runOn_resolve s id).2.2.2.2.2
    rw [h]
    exact ⟨rfl, congrArg Prod.fst h⟩
  · intro student s
    exact ⟨rfl, rfl⟩
  · intro grade s
    exact ⟨rfl, rfl⟩
  · intro grade s
    exact ⟨rfl, rfl⟩

/-- C18: without deletions ids are dense and unique: after any sequence of add mutations
applied to the empty store, each kind's sequence holds the ids 1, 2, ..., n in that order
(n the number of adds of that kind), so the ids are pairwise distinct, and the lookup by
the id returned from any of those adds yields the record that add created. -/
theorem dense_ids_without_deletion (ms : List Mutation)
    (hadd : ms.all Mutation.isAdd = true) :
    ((runMutations ms Store.empty).courses.map (fun c => c.id) =
        idsUpTo (countAddCourse ms) ∧
      (runMutations ms Store.empty).students.map (fun st => st.id) =
        idsUpTo (countAddStudent ms) ∧
      (runMutations ms Store.empty).grades.map (fun g => g.id) =
        idsUpTo (countAddGrade ms)) ∧
    UniqueIds (runMutations ms Store.empty) ∧
    (∀ (pre post : List Mutation) (name description : String),
        ms = pre ++ Mutation.addCourse name description :: post →
        RootQueryType.course (runMutations ms Store.empty)
            (some (RootMutationType.addCourse (runMutations pre Store.empty)
              name description).1.id) =
          some (RootMutationType.addCourse (runMutations pre Store.empty)
            name description).1) ∧
    (∀ (pre post : List Mutation) (name lastnamme : String) (courseId : Int),
        ms = pre ++ Mutation.addStudent name lastnamme courseId :: post →
        RootQueryType.student (runMutations ms Store.empty)
            (some (RootMutationType.addStudent (runMutations pre Store.empty)
              name lastnamme courseId).1.id) =
          some (RootMutationType.addStudent (runMutations pre Store.empty)
            name lastnamme courseId).1) ∧
    (∀ (pre post : List Mutation) (courseId studentId : Int) (grade : Rat),
        ms = pre ++ Mutation.addGrade courseId studentId grade :: post →
        RootQueryType.grade (runMutations ms Store.empty)
            (some (RootMutationType.addGrade (runMutations pre Store.empty)
              courseId studentId grade).1.id) =
          some (RootMutationType.addGrade (runMutations pre Store.empty)
            courseId studentId grade).1) := by
  obtain ⟨hdense, ⟨hl1, hl2, hl3⟩, -⟩ := adds_only_run ms Store.empty hadd
  obtain ⟨hd1, hd2, hd3⟩ := hdense denseIds_empty
  simp only [Store.empty, List.length_nil, Nat.zero_add] at hl1 hl2 hl3
  have hn1 : ((runMutations ms Store.empty).courses.map (fun c => c.id)).Nodup :=
    hd1 ▸ nodup_idsUpTo _
  have hn2 : ((runMutations ms Store.empty).students.map (fun st => st.id)).Nodup :=
    hd2 ▸ nodup_idsUpTo _
  have hn3 : ((runMutations ms Store.empty).grades.map (fun g => g.id)).Nodup :=
    hd3 ▸ nodup_idsUpTo _
  refine ⟨⟨?_, ?_, ?_⟩, ⟨hn1, hn2, hn3⟩, ?_, ?_, ?_⟩
  · rw [hd1]; exact congrArg idsUpTo hl1
  · rw [hd2]; exact congrArg idsUpTo hl2
  · rw [hd3]; exact congrArg idsUpTo hl3
  · intro pre post name description hms
    have hpost : post.all Mutation.isAdd = true := by
      rw [hms] at hadd
      simp only [List.all_append, List.all_cons, Bool.and_eq_true] at hadd
      exact hadd.2.2
    have hmem := (adds_only_run post
      ((Mutation.addCourse name description).exec (runMutations pre Store.empty)) hpost).2.2.1
      (RootMutationType.addCourse (runMutations pre Store.empty) name description).1
      (List.mem_append_right _ (List.mem_singleton_self _))
    have hrun : runMutations ms Store.empty = runMutations post
        ((Mutation.addCourse name description).exec (runMutations pre Store.empty)) := by
      rw [hms, runMutations_append, runMutations_cons]
    rw [← hrun] at hmem
    exact find?_eq_some_of_nodup (fun c => c.id) _ _ hn1 hmem
  · intro pre post name lastnamme courseId hms
    have hpost : post.all Mutation.isAdd = true := by
      rw [hms] at hadd
      simp only [List.all_append, List.all_cons, Bool.and_eq_true] at hadd
      exact hadd.2.2
    have hmem := (adds_only_run post
      ((Mutation.addStudent name lastnamme courseId).exec (runMutations pre Store.empty))
      hpost).2.2.2.1
      (RootMutationType.addStudent (runMutations pre Store.empty) name lastnamme courseId).1
      (List.mem_append_right _ (List.mem_singleton_self _))
    have hrun : runMutations ms Store.empty = runMutations post
        ((Mutation.addStudent name lastnamme courseId).exec
          (runMutations pre Store.empty)) := by
      rw [hms, runMutations_append, runMutations_cons]
    rw [← hrun] at hmem
    exact find?_eq_some_of_nodup (fun st => st.id) _ _ hn2 hmem
  · intro pre post courseId studentId grade hms
    have hpost : post.all Mutation.isAdd = true := by
      rw [hms] at hadd
      simp only [List.all_append, List.all_cons, Bool.and_eq_true] at hadd
      exact hadd.2.2
    have hmem := (adds_only_run post
      ((Mutation.addGrade courseId studentId grade).exec (runMutations pre Store.empty))
      hpost).2.2.2.2
      (RootMutationType.addGrade (runMutations pre Store.empty) courseId studentId grade).1
      (List.mem_append_right _ (List.mem_singleton_self _))
    have hrun : runMutations ms Store.empty = runMutations post
        ((Mutation.addGrade courseId studentId grade).exec
          (runMutations pre Store.empty)) := by
      rw [hms, runMutations_append, runMutations_cons]
    rw [← hrun] at hmem
    exact find?_eq_some_of_nodup (fun g => g.id) _ _ hn3 hmem

/-- Witness for C18: two courses, a student and a grade added to the empty store. -/
theorem dense_ids_without_deletion_witness :
    (runMutations [.addCourse "A" "a", .addStudent "Ada" "Lovelace" 1, .addCourse "B" "b",
        .addGrade 1 1 9] Store.empty).courses.map (fun c => c.id) = idsUpTo 2 ∧
    UniqueIds (runMutations [.addCourse "A" "a", .addStudent "Ada" "Lovelace" 1,
        .addCourse "B" "b", .addGrade 1 1 9] Store.empty) ∧
    RootQueryType.course (runMutations [.addCourse "A" "a", .addStudent "Ada" "Lovelace" 1,
        .addCourse "B" "b", .addGrade 1 1 9] Store.empty) (some 2) =
      some { id := 2, name := "B", description := "b" } :=
  ⟨(dense_ids_without_deletion [.addCourse "A" "a", .addStudent "Ada" "Lovelace" 1,
      .addCourse "B" "b", .addGrade 1 1 9] (by decide)).1.1,
   (dense_ids_without_deletion [.addCourse "A" "a", .addStudent "Ada" "Lovelace" 1,
      .addCourse "B" "b", .addGrade 1 1 9] (by decide)).2.1,
   (dense_ids_without_deletion [.addCourse "A" "a", .addStudent "Ada" "Lovelace" 1,
      .addCourse "B" "b", .addGrade 1 1 9] (by decide)).2.2.1
      [.addCourse "A" "a", .addStudent "Ada" "Lovelace" 1] [.addGrade 1 1 9] "B" "b" rfl⟩

/-- C19: each del mutation is idempotent: for every store and every id, applying
`delCourse(id)` to the store left by `delCourse(id)` leaves the same three sequences and
returns the same list as the first call, and likewise for `delStudent(id)` and
`delGrade(id)`. -/
theorem del_idempotent (s : Store) (id : Option Int) :
    RootMutationType.delCourse (RootMutationType.delCourse s id).2 id =
      RootMutationType.delCourse s id ∧
    RootMutationType.delStudent (RootMutationType.delStudent s id).2 id =
      RootMutationType.delStudent s id ∧
    RootMutationType.delGrade (RootMutationType.delGrade s id).2 id =
      RootMutationType.delGrade s id := by
  refine ⟨?_, ?_, ?_⟩
  · simp only [RootMutationType.delCourse, Lodash.remove_remove]
  · simp only [RootMutationType.delStudent, Lodash.remove_remove]
  · simp only [RootMutationType.delGrade, Lodash.remove_remove]
